import Mathlib

/-!
Verification of the MCV2 vaccination-coverage data pipeline
(`src/clean_data.py`, `src/filter_summary.py`, `src/load_data.py`).

The pandas code is shallowly embedded as follows:

* a Python string is a `List Char` (`Str`); `str.strip`, `str.upper` and
  `str.title` become `pyStrip`, `pyUpper` and `pyTitle` (ASCII letter model,
  matching Lean's `Char.toUpper`/`Char.toLower`);
* a raw DataFrame is a `RawInput`: one flag per recognized source column
  recording whether the column exists, plus a list of rows whose cells are
  `Option`-valued (`none` = missing/NaN/unparseable cell);
* numeric cells are `Int` (year, after `pd.to_numeric(...).astype("Int64")`)
  and `ℚ` (coverage, after `pd.to_numeric`); exceptions become `Except`.
-/

namespace Task1

/-- A Python string, modelled as its list of characters. -/
abbrev Str := List Char

/-- Python `str.strip()`: drop whitespace from both ends
(model of line 56 of `clean_data.py` and the `.str.strip()` calls). -/
def pyStrip (s : Str) : Str :=
  ((s.dropWhile Char.isWhitespace).reverse.dropWhile Char.isWhitespace).reverse

/-- Python `str.upper()` restricted to ASCII letters (`.str.upper()`, line 78). -/
def pyUpper (s : Str) : Str := s.map Char.toUpper

/-- Worker for `pyTitle`: the flag records whether the previous character was
alphabetic (in which case the current letter is lowercased, otherwise
uppercased), as Python `str.title()` does. -/
def pyTitleGo : Bool → Str → Str
  | _, [] => []
  | prevAlpha, c :: cs =>
    (if prevAlpha then Char.toLower c else Char.toUpper c) :: pyTitleGo c.isAlpha cs

/-- Python `str.title()` restricted to ASCII letters (`.str.title()`, lines 81 and 84). -/
def pyTitle (s : Str) : Str := pyTitleGo false s

/-! ### Character-level lemmas -/

theorem toNat_ofNat_valid {n : Nat} (h : n.isValidChar) : (Char.ofNat n).toNat = n := by
  rw [Char.ofNat, dif_pos h]
  simp [Char.ofNatAux, Char.toNat, UInt32.toNat]

theorem toNat_toUpper (c : Char) :
    (Char.toUpper c).toNat = if 97 ≤ c.toNat ∧ c.toNat ≤ 122 then c.toNat - 32 else c.toNat := by
  unfold Char.toUpper
  by_cases h : 97 ≤ c.toNat ∧ c.toNat ≤ 122
  · rw [if_pos ⟨h.1, h.2⟩, if_pos h]
    exact toNat_ofNat_valid (Or.inl (by omega))
  · rw [if_neg, if_neg h]
    omega

theorem char_eq_iff_toNat (c d : Char) : c = d ↔ c.toNat = d.toNat := by
  constructor
  · intro h; rw [h]
  · intro h
    apply Char.ext
    exact UInt32.toNat.inj h

theorem toUpper_idem (c : Char) : (Char.toUpper c).toUpper = c.toUpper := by
  rw [char_eq_iff_toNat]
  have h1 := toNat_toUpper c
  rw [toNat_toUpper, h1]
  split_ifs <;> omega

theorem isWhitespace_iff (c : Char) :
    c.isWhitespace = true ↔ (c.toNat = 32 ∨ c.toNat = 9 ∨ c.toNat = 13 ∨ c.toNat = 10) := by
  unfold Char.isWhitespace
  simp only [Bool.or_eq_true, decide_eq_true_eq, char_eq_iff_toNat,
    show (' ' : Char).toNat = 32 from rfl, show ('\t' : Char).toNat = 9 from rfl,
    show ('\r' : Char).toNat = 13 from rfl, show ('\n' : Char).toNat = 10 from rfl]
  tauto

theorem isWhitespace_toUpper (c : Char) : (Char.toUpper c).isWhitespace = c.isWhitespace := by
  rw [Bool.eq_iff_iff, isWhitespace_iff, isWhitespace_iff, toNat_toUpper]
  split_ifs with h
  · omega
  · rfl

/-! ### Generic list helpers

`insertSorted`/`sortBy` model the sorting done by `sort_values` and by
`groupby` (which emits its groups with sorted keys); `dedupFirstBy` models
`DataFrame.drop_duplicates(subset=..., keep="first")` via an accumulator of
already-seen keys. -/

def insertSorted {α : Type} (le : α → α → Bool) (x : α) : List α → List α
  | [] => [x]
  | y :: ys => if le x y then x :: y :: ys else y :: insertSorted le x ys

def sortBy {α : Type} (le : α → α → Bool) (l : List α) : List α :=
  l.foldr (insertSorted le) []

def dedupFirstBy {α κ : Type} [DecidableEq κ] (key : α → κ) : List α → List κ → List α
  | [], _ => []
  | x :: xs, seen =>
    if key x ∈ seen then dedupFirstBy key xs seen
    else x :: dedupFirstBy key xs (key x :: seen)

/-- Deduplication as the spec words it: remove records sharing a key, keeping
the first occurrence under input order.  Used as the declarative counterpart of
`dedupFirstBy` (the embedding of `drop_duplicates`). -/
def keepFirstOccurrences {α κ : Type} [DecidableEq κ] (key : α → κ) : List α → List α
  | [] => []
  | x :: xs => x :: keepFirstOccurrences key (xs.filter (fun y => key y ≠ key x))
termination_by l => l.length
decreasing_by
  simp only [List.length_cons]
  exact Nat.lt_succ_of_le (List.length_filter_le _ _)

theorem keepFirstOccurrences_nil {α κ : Type} [DecidableEq κ] (key : α → κ) :
    keepFirstOccurrences key ([] : List α) = [] := by
  rw [keepFirstOccurrences]

theorem keepFirstOccurrences_cons {α κ : Type} [DecidableEq κ] (key : α → κ) (x : α)
    (xs : List α) :
    keepFirstOccurrences key (x :: xs) =
      x :: keepFirstOccurrences key (xs.filter (fun y => key y ≠ key x)) := by
  rw [keepFirstOccurrences]

/-! ### Data model for `clean_data.py` -/

/-- One raw row.  Each cell is `Option`-valued: `none` is a missing/NaN cell,
and for `year`/`mcv2_coverage` also a cell that `pd.to_numeric(errors="coerce")`
fails to parse (the coercions of lines 63 and 70 of `clean_data.py` are folded
into the cell types). -/
structure RawRow where
  country : Option Str
  country_name : Option Str
  year : Option Int
  mcv2_coverage : Option ℚ
  region : Option Str
deriving DecidableEq

/-- A raw DataFrame: presence flags for the five recognized source columns
(`SpatialDimensionValueCode`, `SpatialDimension`, `TimeDimensionValue`,
`NumericValue`, `ParentLocation`), plus the rows. -/
structure RawInput where
  hasCountry : Bool
  hasCountryName : Bool
  hasYear : Bool
  hasCoverage : Bool
  hasRegion : Bool
  rows : List RawRow
deriving DecidableEq

/-- Row after the country stage (lines 55-57): country resolved to a string. -/
structure RowC where
  country : Str
  country_name : Option Str
  year : Option Int
  mcv2_coverage : Option ℚ
  region : Option Str
deriving DecidableEq

/-- Row after the year stage (lines 63-65): year resolved. -/
structure RowY where
  country : Str
  country_name : Option Str
  year : Int
  mcv2_coverage : Option ℚ
  region : Option Str
deriving DecidableEq

/-- A cleaned record: the canonical unit of data.  `country_name`/`region` are
`none` exactly when the corresponding optional source column was absent. -/
structure CanonicalRecord where
  country : Str
  country_name : Option Str
  year : Int
  mcv2_coverage : ℚ
  region : Option Str
deriving DecidableEq

/-- A cleaned DataFrame: the records plus which optional columns exist. -/
structure Frame where
  hasCountryName : Bool
  hasRegion : Bool
  rows : List CanonicalRecord
deriving DecidableEq

/-- The exceptions `clean_mcv2_data` can raise: the `ValueError` of line 43
(the spec's `SchemaError`, carrying the missing source columns) and the
`ZeroDivisionError` of line 95 (`cleaned_count / original_count` with an
empty input). -/
inductive CleanError
  | schemaError (missingSourceFields : List Str)
  | zeroDivisionError
deriving DecidableEq

/-- Source columns required by the critical validation of lines 39-46: the
check `len(matched_required) < 3` fails exactly when one of these is absent. -/
def missingSourceFields (inp : RawInput) : List Str :=
  (if inp.hasCountry then [] else [("SpatialDimensionValueCode").data]) ++
  (if inp.hasYear then [] else [("TimeDimensionValue").data]) ++
  (if inp.hasCoverage then [] else [("NumericValue").data])

/-- Stage 2.1 (lines 55-57): drop rows with a null country, strip the country
cell, drop rows whose stripped country is empty. -/
def countryStage (rows : List RawRow) : List RowC :=
  (rows.filterMap (fun r => r.country.map (fun c =>
      ({ country := pyStrip c, country_name := r.country_name, year := r.year,
         mcv2_coverage := r.mcv2_coverage, region := r.region } : RowC)))).filter
    (fun r => decide (r.country ≠ []))

/-- Stage 2.2 (lines 63-65): drop rows with missing/unparseable year, keep
years in `[1980, 2025]`. -/
def yearStage (rows : List RowC) : List RowY :=
  rows.filterMap (fun r => r.year.bind (fun y =>
    if 1980 ≤ y ∧ y ≤ 2025 then
      some { country := r.country, country_name := r.country_name, year := y,
             mcv2_coverage := r.mcv2_coverage, region := r.region }
    else none))

/-- Stage 2.3 (lines 70-72): drop rows with missing/unparseable coverage, keep
coverage in `[0, 100]`. -/
def coverageStage (rows : List RowY) : List CanonicalRecord :=
  rows.filterMap (fun r => r.mcv2_coverage.bind (fun v =>
    if 0 ≤ v ∧ v ≤ 100 then
      some { country := r.country, country_name := r.country_name, year := r.year,
             mcv2_coverage := v, region := r.region }
    else none))

/-- Python `astype(str)` on a cell: a NaN cell becomes the literal string
`"nan"` (as `df_clean["region"].astype(str)` does on line 81). -/
def cellStr : Option Str → Str
  | some s => s
  | none => ("nan").data

/-- Stage 3 (lines 78-84): uppercase `country`; strip-and-title-case `region`
and `country_name` when those columns exist. -/
def formatStage (hasCountryName hasRegion : Bool) (rows : List CanonicalRecord) :
    List CanonicalRecord :=
  rows.map (fun r =>
    { r with
      country := pyUpper r.country,
      country_name := if hasCountryName then some (pyTitle (pyStrip (cellStr r.country_name))) else none,
      region := if hasRegion then some (pyTitle (pyStrip (cellStr r.region))) else none })

/-- The `(country, year)` composite key used by the deduplication of line 88. -/
def recKey (r : CanonicalRecord) : Str × Int := (r.country, r.year)

/-- Stages 2-3 composed: the record list right before deduplication. -/
def formattedStage (inp : RawInput) : List CanonicalRecord :=
  formatStage inp.hasCountryName inp.hasRegion
    (coverageStage (yearStage (countryStage inp.rows)))

/-- `clean_mcv2_data` (`clean_data.py`, lines 7-100).  The final branch models
the summary logging of line 95, whose `cleaned_count / original_count`
expression raises `ZeroDivisionError` on a zero-row input. -/
def clean_mcv2_data (inp : RawInput) : Except CleanError Frame :=
  if missingSourceFields inp = [] then
    if inp.rows.isEmpty then .error .zeroDivisionError
    else .ok ⟨inp.hasCountryName, inp.hasRegion, dedupFirstBy recKey (formattedStage inp) []⟩
  else .error (.schemaError (missingSourceFields inp))

/-! ### Data model for `filter_summary.py` -/

/-- The filter-criteria dictionary of `filter_mcv2_data`.  A key that is absent
from the Python dict is `none`; note the source guards each step with
`if "k" in filters and filters["k"]`, so a present key whose value is falsy
(`None`, empty list, `0`) behaves like an absent one — falsy non-`None`
values are kept in the model and tested by the explicit truthiness checks in
`filter_mcv2_data`. -/
structure Filters where
  country : Option (List Str)
  year_start : Option Int
  year_end : Option Int
  region : Option (List Str)
  mcv2_coverage_min : Option ℚ
deriving DecidableEq

/-- One guarded filter step of `filter_mcv2_data`: if the criterion is present
(`some x`) and truthy (`t x`), keep the rows satisfying the predicate,
otherwise leave the rows unchanged. -/
def applyStep {α β : Type} (o : Option β) (t : β → Bool) (p : β → α → Bool)
    (l : List α) : List α :=
  match o with
  | some x => if t x then l.filter (p x) else l
  | none => l

/-- The per-record predicate of one guarded filter step: an absent or
non-truthy criterion imposes no constraint. -/
def stepOk {α β : Type} (o : Option β) (t : β → Bool) (p : β → α → Bool)
    (r : α) : Bool :=
  match o with
  | some x => if t x then p x r else true
  | none => true

/-- Membership test of `Series.isin` on the optional `region` column: a NaN
cell is never a member. -/
def regionIsin (rs : List Str) (r : CanonicalRecord) : Bool :=
  match r.region with
  | some v => decide (v ∈ rs)
  | none => false

/-- `filter_mcv2_data` (`filter_summary.py`, lines 7-53): the five guarded
filter steps, in source order.  Truthiness: a list is truthy iff non-empty, a
number iff non-zero. -/
def filter_mcv2_data (rows : List CanonicalRecord) (f : Filters) : List CanonicalRecord :=
  let d1 := applyStep f.country (fun cs => !cs.isEmpty)
    (fun cs r => decide (r.country ∈ cs)) rows
  let d2 := applyStep f.year_start (fun y => decide (y ≠ 0))
    (fun y r => decide (y ≤ r.year)) d1
  let d3 := applyStep f.year_end (fun y => decide (y ≠ 0))
    (fun y r => decide (r.year ≤ y)) d2
  let d4 := applyStep f.region (fun rs => !rs.isEmpty) regionIsin d3
  applyStep f.mcv2_coverage_min (fun m => decide (m ≠ 0))
    (fun m r => decide (m ≤ r.mcv2_coverage)) d4

/-- The conjunction of all present (and truthy) criteria, the declarative
counterpart of the five sequential filter steps. -/
def matchesFilters (f : Filters) (r : CanonicalRecord) : Bool :=
  stepOk f.country (fun cs => !cs.isEmpty) (fun cs r => decide (r.country ∈ cs)) r &&
  stepOk f.year_start (fun y => decide (y ≠ 0)) (fun y r => decide (y ≤ r.year)) r &&
  stepOk f.year_end (fun y => decide (y ≠ 0)) (fun y r => decide (r.year ≤ y)) r &&
  stepOk f.region (fun rs => !rs.isEmpty) regionIsin r &&
  stepOk f.mcv2_coverage_min (fun m => decide (m ≠ 0)) (fun m r => decide (m ≤ r.mcv2_coverage)) r

/-- A value of a grouping column (`groupby` key): the cleaned columns hold
strings, integers and rationals. -/
inductive CellVal
  | s (v : Str)
  | i (v : Int)
  | q (v : ℚ)
deriving DecidableEq

def colCountry : Str := ("country").data
def colCountryName : Str := ("country_name").data
def colYear : Str := ("year").data
def colCoverage : Str := ("mcv2_coverage").data
def colRegion : Str := ("region").data

/-- The columns of a cleaned DataFrame, in the order produced by the field
mapping of `clean_data.py`. -/
def columnsOf (fr : Frame) : List Str :=
  [colCountry] ++ (if fr.hasCountryName then [colCountryName] else []) ++
  [colYear, colCoverage] ++ (if fr.hasRegion then [colRegion] else [])

/-- Read a record's cell in the named column.  `none` for a NaN cell of an
optional column (pandas `groupby` drops NaN keys) or an unknown column. -/
def getCell (col : Str) (r : CanonicalRecord) : Option CellVal :=
  if col = colCountry then some (.s r.country)
  else if col = colCountryName then r.country_name.map .s
  else if col = colYear then some (.i r.year)
  else if col = colCoverage then some (.q r.mcv2_coverage)
  else if col = colRegion then r.region.map .s
  else none

/-- Lexicographic order on strings, used to model `groupby`'s sorted keys. -/
def strLE : Str → Str → Bool
  | [], _ => true
  | _ :: _, [] => false
  | a :: as, b :: bs => if a = b then strLE as bs else decide (a < b)

/-- A total comparison on cell values (groups of one call share a column, so
mixed constructors never actually get compared). -/
def cellLE : CellVal → CellVal → Bool
  | .s a, .s b => strLE a b
  | .i a, .i b => decide (a ≤ b)
  | .q a, .q b => decide (a ≤ b)
  | .s _, _ => true
  | .i _, .s _ => false
  | .i _, .q _ => true
  | .q _, _ => false

/-- One output row of `summarize_mcv2_data`: the group key and the aggregated
coverage statistics (the later column renaming of lines 80-86 only relabels
these fields). -/
structure SummaryRow where
  key : CellVal
  coverage_mean : ℚ
  coverage_max : ℚ
  coverage_min : ℚ
  record_count : Nat
deriving DecidableEq

/-- Round a rational to the nearest integer, ties to even — the rounding used
by `DataFrame.round` (numpy half-even). -/
def roundHalfEvenInt (x : ℚ) : Int :=
  let f := x.floor
  let r := x - f
  if r < 1/2 then f
  else if 1/2 < r then f + 1
  else if f % 2 = 0 then f else f + 1

/-- `round(1)`: round to one decimal place, ties to even. -/
def round1 (x : ℚ) : ℚ := (roundHalfEvenInt (x * 10) : ℚ) / 10

def qsum (l : List ℚ) : ℚ := l.foldr (· + ·) 0

def qmean (l : List ℚ) : ℚ := qsum l / l.length

def qmaxList : List ℚ → ℚ
  | [] => 0
  | v :: vs => vs.foldl max v

def qminList : List ℚ → ℚ
  | [] => 0
  | v :: vs => vs.foldl min v

/-- The grouping column actually used: lines 67-68 fall back to `"country"`
when the requested one is not a column. -/
def effectiveGroupKey (fr : Frame) (group_by : Str) : Str :=
  if group_by ∈ columnsOf fr then group_by else colCountry

/-- Whether the `logger.warning` of line 69 fires: exactly on the fallback. -/
def summarize_warns (fr : Frame) (group_by : Str) : Bool :=
  decide (group_by ∉ columnsOf fr)

/-- The `(group key, coverage)` pairs entering `groupby(g)["mcv2_coverage"]`;
rows whose key cell is NaN are dropped, as pandas does. -/
def groupPairs (rows : List CanonicalRecord) (g : Str) : List (CellVal × ℚ) :=
  rows.filterMap (fun r => (getCell g r).map (fun k => (k, r.mcv2_coverage)))

/-- The summary row the aggregation of lines 72-77 emits for one group key:
mean/max/min of the group's coverage values rounded to one decimal place, plus
the group size. -/
def summaryRowOf (pairs : List (CellVal × ℚ)) (k : CellVal) : SummaryRow :=
  { key := k
    coverage_mean := round1 (qmean ((pairs.filter (fun p => p.1 = k)).map Prod.snd))
    coverage_max := round1 (qmaxList ((pairs.filter (fun p => p.1 = k)).map Prod.snd))
    coverage_min := round1 (qminList ((pairs.filter (fun p => p.1 = k)).map Prod.snd))
    record_count := ((pairs.filter (fun p => p.1 = k)).map Prod.snd).length }

/-- `summarize_mcv2_data` (`filter_summary.py`, lines 56-89): group by the
effective key, emit one row per distinct key (in sorted key order, as
`groupby` does) with mean/max/min of the coverage rounded to one decimal
place and the record count. -/
def summarize_mcv2_data (fr : Frame) (group_by : Str) : List SummaryRow :=
  (sortBy cellLE (dedupFirstBy id
      ((groupPairs fr.rows (effectiveGroupKey fr group_by)).map Prod.fst) [])).map
    (summaryRowOf (groupPairs fr.rows (effectiveGroupKey fr group_by)))

/-- The coverage values of the group keyed `k`, read directly off the records
(declarative counterpart of the grouped column). -/
def groupValues (rows : List CanonicalRecord) (g : Str) (k : CellVal) : List ℚ :=
  (rows.filter (fun r => getCell g r = some k)).map (fun r => r.mcv2_coverage)

/-- `mcv2_trend_analysis` (`filter_summary.py`, lines 92-114): select the rows
of one country (exact, case-sensitive match), sort by year, project to
`(year, coverage)` (the renaming of lines 108-111 only relabels).
`sort_values` uses an unstable quicksort; only the sortedness and the
multiset of rows are specified, which the insertion sort here realizes. -/
def mcv2_trend_analysis (rows : List CanonicalRecord) (country_code : Str) : List (Int × ℚ) :=
  sortBy (fun a b => decide (a.1 ≤ b.1))
    ((rows.filter (fun r => r.country = country_code)).map
      (fun r => (r.year, r.mcv2_coverage)))

/-! ### Data model for `load_data.py` -/

/-- A row as handed to `df_to_sqlite`: every cell may be null (the function is
called on arbitrary frames, not only cleaned ones). -/
structure DbRow where
  country : Option Str
  country_name : Option Str
  year : Option Int
  mcv2_coverage : Option ℚ
  region : Option Str
deriving DecidableEq

/-- Does the row contain a null in any column?  Models the null check of
lines 38-39, which scans every column of the frame, optional ones included. -/
def rowHasNull (r : DbRow) : Bool :=
  r.country.isNone || r.country_name.isNone || r.year.isNone ||
  r.mcv2_coverage.isNone || r.region.isNone

/-- `df_to_sqlite` (`load_data.py`, lines 24-80), acting on the stored table
contents (`none` = table absent).  The null check of lines 38-41 runs before
any database access, so on that failure the store is untouched; otherwise the
code drops the old table, recreates it and inserts all rows — a full
replacement of the stored contents.  There is no emptiness check: an empty
frame passes the null check vacuously and replaces the store with an empty
table.  (I/O failures of SQLite itself are not modelled.) -/
def df_to_sqlite (df : List DbRow) (stored : Option (List DbRow)) :
    Bool × Option (List DbRow) :=
  if df.any rowHasNull then (false, stored) else (true, some df)

/-! ### Lemmas about the string model -/

theorem dropWhile_idem {α : Type} (p : α → Bool) (l : List α) :
    (l.dropWhile p).dropWhile p = l.dropWhile p := by
  induction l with
  | nil => rfl
  | cons a t ih =>
    by_cases h : p a
    · simp [List.dropWhile_cons_of_pos h, ih]
    · simp [List.dropWhile_cons_of_neg h]

theorem dropWhile_eq_self_of_head {α : Type} {p : α → Bool} {l : List α}
    (h : ∀ a, l.head? = some a → p a = false) : l.dropWhile p = l := by
  cases l with
  | nil => rfl
  | cons a t => exact List.dropWhile_cons_of_neg (by simp [h a rfl])

theorem pyStrip_idem (s : Str) : pyStrip (pyStrip s) = pyStrip s := by
  unfold pyStrip
  set p := Char.isWhitespace with hp
  set A := s.dropWhile p with hA
  set B := A.reverse.dropWhile p with hB
  have h1 : B.reverse.dropWhile p = B.reverse := by
    apply dropWhile_eq_self_of_head
    intro a ha
    have hsuf : A.reverse.dropWhile p <:+ A.reverse := List.dropWhile_suffix p
    obtain ⟨u, hu⟩ := hsuf
    rw [← hB] at hu
    have hA2 : A = B.reverse ++ u.reverse := by
      have h0 := congrArg List.reverse hu
      simpa [List.reverse_append] using h0.symm
    have hAh : A.head? = some a := by
      cases hBr : B.reverse with
      | nil => rw [hBr] at ha; simp at ha
      | cons c t =>
        rw [hBr] at ha
        simp only [List.head?_cons, Option.some.injEq] at ha
        rw [hA2, hBr, List.cons_append, List.head?_cons, ha]
    have hnot := List.head?_dropWhile_not p s
    rw [← hA] at hnot
    simp only [hAh] at hnot
    exact hnot
  rw [h1, List.reverse_reverse]
  have h2 : B.dropWhile p = B := by
    rw [hB]
    exact dropWhile_idem p A.reverse
  rw [h2]

theorem pyStrip_pyUpper (s : Str) : pyStrip (pyUpper s) = pyUpper (pyStrip s) := by
  unfold pyStrip pyUpper
  have hcomp : (Char.isWhitespace ∘ Char.toUpper) = Char.isWhitespace :=
    funext isWhitespace_toUpper
  rw [List.dropWhile_map, hcomp, ← List.map_reverse, List.dropWhile_map, hcomp,
    ← List.map_reverse]

theorem pyUpper_idem (s : Str) : pyUpper (pyUpper s) = pyUpper s := by
  unfold pyUpper
  rw [List.map_map]
  exact List.map_congr_left (fun a _ => toUpper_idem a)

theorem pyUpper_ne_nil {s : Str} (h : s ≠ []) : pyUpper s ≠ [] := by
  simpa [pyUpper] using h

/-! ### Lemmas about `dedupFirstBy`, `keepFirstOccurrences`, `sortBy` -/

theorem dedupFirstBy_sublist {α κ : Type} [DecidableEq κ] (key : α → κ) (l : List α)
    (seen : List κ) : List.Sublist (dedupFirstBy key l seen) l := by
  induction l generalizing seen with
  | nil => simp [dedupFirstBy]
  | cons x xs ih =>
    unfold dedupFirstBy
    by_cases h : key x ∈ seen
    · rw [if_pos h]; exact (ih seen).cons x
    · rw [if_neg h]; exact (ih _).cons₂ x

theorem dedupFirstBy_keys {α κ : Type} [DecidableEq κ] (key : α → κ) (l : List α)
    (seen : List κ) :
    ((dedupFirstBy key l seen).map key).Nodup ∧
      ∀ k ∈ (dedupFirstBy key l seen).map key, k ∉ seen := by
  induction l generalizing seen with
  | nil => simp [dedupFirstBy]
  | cons x xs ih =>
    unfold dedupFirstBy
    by_cases h : key x ∈ seen
    · rw [if_pos h]; exact ih seen
    · rw [if_neg h]
      obtain ⟨ih1, ih2⟩ := ih (key x :: seen)
      constructor
      · simp only [List.map_cons, List.nodup_cons]
        exact ⟨fun hmem => (ih2 _ hmem) (List.mem_cons_self _ _), ih1⟩
      · intro k hk
        simp only [List.map_cons, List.mem_cons] at hk
        rcases hk with rfl | hk
        · exact h
        · exact fun hkseen => (ih2 k hk) (List.mem_cons_of_mem _ hkseen)

theorem dedupFirstBy_mem_key {α κ : Type} [DecidableEq κ] (key : α → κ) (l : List α)
    (seen : List κ) (k : κ) :
    k ∈ (dedupFirstBy key l seen).map key ↔ k ∈ l.map key ∧ k ∉ seen := by
  induction l generalizing seen with
  | nil => simp [dedupFirstBy]
  | cons x xs ih =>
    unfold dedupFirstBy
    by_cases h : key x ∈ seen
    · rw [if_pos h, ih seen]
      simp only [List.map_cons, List.mem_cons]
      constructor
      · rintro ⟨hm, hs⟩; exact ⟨Or.inr hm, hs⟩
      · rintro ⟨hm | hm, hs⟩
        · exact absurd (hm ▸ h) hs
        · exact ⟨hm, hs⟩
    · rw [if_neg h]
      simp only [List.map_cons, List.mem_cons, ih (key x :: seen)]
      constructor
      · rintro (rfl | ⟨hm, hs⟩)
        · exact ⟨Or.inl rfl, h⟩
        · exact ⟨Or.inr hm, fun hk => hs (Or.inr hk)⟩
      · rintro ⟨hm | hm, hs⟩
        · exact Or.inl hm
        · by_cases hkx : k = key x
          · exact Or.inl hkx
          · exact Or.inr ⟨hm, by simp [hkx, hs]⟩

theorem dedupFirstBy_eq_keepFirst {α κ : Type} [DecidableEq κ] (key : α → κ) (l : List α) :
    ∀ seen, dedupFirstBy key l seen =
      keepFirstOccurrences key (l.filter (fun y => decide (key y ∉ seen))) := by
  induction l with
  | nil => intro seen; simp [dedupFirstBy, keepFirstOccurrences]
  | cons x xs ih =>
    intro seen
    unfold dedupFirstBy
    by_cases h : key x ∈ seen
    · rw [if_pos h, ih seen]
      congr 1
      simp [List.filter_cons, h]
    · rw [if_neg h, ih (key x :: seen)]
      simp only [List.filter_cons]
      rw [if_pos (by simp [h])]
      rw [keepFirstOccurrences_cons]
      congr 1
      have hf : (xs.filter (fun y => decide (key y ∉ seen))).filter
          (fun y => decide (key y ≠ key x)) =
          xs.filter (fun y => decide (key y ∉ key x :: seen)) := by
        rw [List.filter_filter]
        apply List.filter_congr
        intro y _
        by_cases h1 : key y = key x <;> by_cases h2 : key y ∈ seen <;>
          simp [h1, h2, List.mem_cons]
      rw [← hf]

theorem dedupFirstBy_nil_eq_keepFirst {α κ : Type} [DecidableEq κ] (key : α → κ)
    (l : List α) : dedupFirstBy key l [] = keepFirstOccurrences key l := by
  rw [dedupFirstBy_eq_keepFirst]
  have h : (l.filter (fun y => decide (key y ∉ ([] : List κ)))) = l :=
    List.filter_eq_self.mpr (by intro a _; simp)
  rw [h]

theorem insertSorted_perm {α : Type} (le : α → α → Bool) (x : α) (l : List α) :
    (insertSorted le x l).Perm (x :: l) := by
  induction l with
  | nil => exact List.Perm.refl _
  | cons y ys ih =>
    unfold insertSorted
    by_cases h : le x y
    · rw [if_pos h]
    · rw [if_neg h]
      exact (ih.cons y).trans (List.Perm.swap x y ys)

theorem sortBy_perm {α : Type} (le : α → α → Bool) (l : List α) :
    (sortBy le l).Perm l := by
  induction l with
  | nil => exact List.Perm.refl _
  | cons x xs ih =>
    show (insertSorted le x (sortBy le xs)).Perm (x :: xs)
    exact (insertSorted_perm le x _).trans (ih.cons x)

theorem insertSorted_pairwise {α : Type} (le : α → α → Bool)
    (htot : ∀ a b, le a b = true ∨ le b a = true)
    (htrans : ∀ a b c, le a b = true → le b c = true → le a c = true)
    (x : α) {l : List α} (h : l.Pairwise (fun a b => le a b = true)) :
    (insertSorted le x l).Pairwise (fun a b => le a b = true) := by
  induction l with
  | nil => simp [insertSorted]
  | cons y ys ih =>
    rw [List.pairwise_cons] at h
    obtain ⟨h1, h2⟩ := h
    unfold insertSorted
    by_cases hxy : le x y
    · rw [if_pos hxy]
      rw [List.pairwise_cons]
      refine ⟨?_, List.pairwise_cons.mpr ⟨h1, h2⟩⟩
      intro b hb
      rcases List.mem_cons.mp hb with rfl | hb
      · exact hxy
      · exact htrans x y b hxy (h1 b hb)
    · rw [if_neg hxy]
      rw [List.pairwise_cons]
      refine ⟨?_, ih h2⟩
      intro b hb
      have hb2 := (insertSorted_perm le x ys).mem_iff.mp hb
      rcases List.mem_cons.mp hb2 with rfl | hb2
      · rcases htot b y with h' | h'
        · exact absurd h' hxy
        · exact h'
      · exact h1 b hb2

theorem sortBy_pairwise {α : Type} (le : α → α → Bool)
    (htot : ∀ a b, le a b = true ∨ le b a = true)
    (htrans : ∀ a b c, le a b = true → le b c = true → le a c = true)
    (l : List α) : (sortBy le l).Pairwise (fun a b => le a b = true) := by
  induction l with
  | nil => simp [sortBy]
  | cons x xs ih =>
    show (insertSorted le x (sortBy le xs)).Pairwise _
    exact insertSorted_pairwise le htot htrans x ih

/-! ### Lemmas about the cleaning pipeline -/

theorem clean_ok_rows {inp : RawInput} {fr : Frame} (h : clean_mcv2_data inp = .ok fr) :
    fr.rows = dedupFirstBy recKey (formattedStage inp) [] := by
  unfold clean_mcv2_data at h
  by_cases h1 : missingSourceFields inp = []
  · rw [if_pos h1] at h
    by_cases h2 : inp.rows.isEmpty
    · rw [if_pos h2] at h; exact absurd h (by simp)
    · rw [if_neg h2] at h
      injection h with h3
      rw [← h3]
  · rw [if_neg h1] at h; exact absurd h (by simp)

theorem mem_countryStage {r : RowC} {rows : List RawRow} (h : r ∈ countryStage rows) :
    (∃ c, r.country = pyStrip c) ∧ r.country ≠ [] := by
  unfold countryStage at h
  rw [List.mem_filter] at h
  obtain ⟨h1, h2⟩ := h
  rw [List.mem_filterMap] at h1
  obtain ⟨a, _, ha⟩ := h1
  refine ⟨?_, by simpa using h2⟩
  cases hc : a.country with
  | none => rw [hc] at ha; simp at ha
  | some c =>
    rw [hc] at ha
    simp only [Option.map_some', Option.some.injEq] at ha
    exact ⟨c, by rw [← ha]⟩

theorem mem_yearStage {r : RowY} {l : List RowC} (h : r ∈ yearStage l) :
    (∃ rc ∈ l, (rc : RowC).country = r.country) ∧ 1980 ≤ r.year ∧ r.year ≤ 2025 := by
  unfold yearStage at h
  rw [List.mem_filterMap] at h
  obtain ⟨a, hal, ha⟩ := h
  rw [Option.bind_eq_some] at ha
  obtain ⟨y, _, ha⟩ := ha
  by_cases hb : 1980 ≤ y ∧ y ≤ 2025
  · rw [if_pos hb] at ha
    injection ha with ha
    refine ⟨⟨a, hal, by rw [← ha]⟩, by rw [← ha]; exact hb.1, by rw [← ha]; exact hb.2⟩
  · rw [if_neg hb] at ha; simp at ha

theorem mem_coverageStage {r : CanonicalRecord} {l : List RowY} (h : r ∈ coverageStage l) :
    (∃ ry ∈ l, (ry : RowY).country = r.country ∧ ry.year = r.year) ∧
      0 ≤ r.mcv2_coverage ∧ r.mcv2_coverage ≤ 100 := by
  unfold coverageStage at h
  rw [List.mem_filterMap] at h
  obtain ⟨a, hal, ha⟩ := h
  rw [Option.bind_eq_some] at ha
  obtain ⟨v, _, ha⟩ := ha
  by_cases hb : 0 ≤ v ∧ v ≤ 100
  · rw [if_pos hb] at ha
    injection ha with ha
    refine ⟨⟨a, hal, by rw [← ha], by rw [← ha]⟩, by rw [← ha]; exact hb.1,
      by rw [← ha]; exact hb.2⟩
  · rw [if_neg hb] at ha; simp at ha

theorem mem_formatStage {r : CanonicalRecord} {hcn hre : Bool} {l : List CanonicalRecord}
    (h : r ∈ formatStage hcn hre l) :
    ∃ q ∈ l, r.country = pyUpper q.country ∧ r.year = q.year ∧
      r.mcv2_coverage = q.mcv2_coverage := by
  unfold formatStage at h
  rw [List.mem_map] at h
  obtain ⟨q, hq, hqr⟩ := h
  exact ⟨q, hq, by rw [← hqr], by rw [← hqr], by rw [← hqr]⟩

/-- The canonical-record invariant of the spec: `country` non-null (guaranteed
by the type), non-empty after trimming, uppercase; `year` in `[1980, 2025]`;
`mcv2_coverage` in `[0, 100]`. -/
def canonicalInv (r : CanonicalRecord) : Prop :=
  pyStrip r.country ≠ [] ∧ pyUpper r.country = r.country ∧
  1980 ≤ r.year ∧ r.year ≤ 2025 ∧ 0 ≤ r.mcv2_coverage ∧ r.mcv2_coverage ≤ 100

/-- C1: every record in the canonical set returned by `clean_mcv2_data`
satisfies the canonical-record invariant: `country` is non-null (it is a total
string field), non-empty after trimming, and uppercase; `year` is an integer
in `[1980, 2025]`; `mcv2_coverage` is a rational in `[0, 100]`. -/
theorem clean_mcv2_data_canonical_invariant (inp : RawInput) (fr : Frame)
    (h : clean_mcv2_data inp = .ok fr) : ∀ r ∈ fr.rows, canonicalInv r := by
  intro r hr
  rw [clean_ok_rows h] at hr
  have hr1 : r ∈ formattedStage inp :=
    List.Sublist.mem hr (dedupFirstBy_sublist recKey (formattedStage inp) [])
  unfold formattedStage at hr1
  obtain ⟨q, hq, hcountry, hyear, hcov⟩ := mem_formatStage hr1
  obtain ⟨⟨ry, hry, hcq, hyq⟩, hcov1, hcov2⟩ := mem_coverageStage hq
  obtain ⟨⟨rc, hrc, hcy⟩, hy1, hy2⟩ := mem_yearStage hry
  obtain ⟨⟨c0, hc0⟩, hne⟩ := mem_countryStage hrc
  have hqc : q.country = pyStrip c0 := by rw [← hcq, ← hcy, hc0]
  refine ⟨?_, ?_, ?_, ?_, ?_, ?_⟩
  · rw [hcountry, hqc, pyStrip_pyUpper, pyStrip_idem]
    apply pyUpper_ne_nil
    rw [← hc0]
    exact hne
  · rw [hcountry, pyUpper_idem]
  · rw [hyear, ← hyq]
    exact hy1
  · rw [hyear, ← hyq]
    exact hy2
  · exact hcov ▸ hcov1
  · exact hcov ▸ hcov2

/-- C2: in the output of `clean_mcv2_data` no two records share a
`(country, year)` pair, and the set kept is exactly the first occurrence of
each pair under the input order of the records leaving the validation and
formatting stages (`keepFirstOccurrences` renders the spec's wording). -/
theorem clean_mcv2_data_dedup_first (inp : RawInput) (fr : Frame)
    (h : clean_mcv2_data inp = .ok fr) :
    (fr.rows.map recKey).Nodup ∧
      fr.rows = keepFirstOccurrences recKey (formattedStage inp) := by
  have hrows := clean_ok_rows h
  constructor
  · rw [hrows]; exact (dedupFirstBy_keys recKey (formattedStage inp) []).1
  · rw [hrows]; exact dedupFirstBy_nil_eq_keepFirst recKey (formattedStage inp)

theorem missingSourceFields_eq_nil (inp : RawInput) :
    missingSourceFields inp = [] ↔
      (inp.hasCountry = true ∧ inp.hasYear = true ∧ inp.hasCoverage = true) := by
  unfold missingSourceFields
  cases inp.hasCountry <;> cases inp.hasYear <;> cases inp.hasCoverage <;> simp

theorem exists_schemaError_iff (inp : RawInput) :
    (∃ ms, clean_mcv2_data inp = .error (.schemaError ms)) ↔
      ¬(missingSourceFields inp = []) := by
  unfold clean_mcv2_data
  by_cases h1 : missingSourceFields inp = []
  · simp only [h1, if_pos, not_true, iff_false]
    rintro ⟨ms, hms⟩
    by_cases h2 : inp.rows.isEmpty
    · rw [if_pos h2] at hms; simp at hms
    · rw [if_neg h2] at hms; simp at hms
  · rw [if_neg h1]
    simp only [h1, not_false_iff, iff_true]
    exact ⟨missingSourceFields inp, rfl⟩

/-- C3: `clean_mcv2_data` raises the schema error (the spec's `SchemaError`
contract; as an exception it produces no partial canonical set) if and only if
one of the required source columns `SpatialDimensionValueCode`,
`TimeDimensionValue`, `NumericValue` is absent, i.e. iff fewer than 3 of the
canonical fields are resolvable. -/
theorem clean_mcv2_data_schema_error_iff (inp : RawInput) :
    (∃ ms, clean_mcv2_data inp = .error (.schemaError ms)) ↔
      (inp.hasCountry = false ∨ inp.hasYear = false ∨ inp.hasCoverage = false) := by
  rw [exists_schemaError_iff]
  constructor
  · intro h
    by_contra hno
    push_neg at hno
    obtain ⟨hc, hy, hcov⟩ := hno
    simp only [Bool.not_eq_false] at hc hy hcov
    exact h ((missingSourceFields_eq_nil inp).mpr ⟨hc, hy, hcov⟩)
  · intro h hmiss
    obtain ⟨hc, hy, hcov⟩ := (missingSourceFields_eq_nil inp).mp hmiss
    rcases h with h | h | h <;> simp_all

/-- C8 (failing input): on a raw input that has all required source columns but
zero rows, `clean_mcv2_data` does not return an empty canonical set — the
summary logging divides by the original row count and raises
`ZeroDivisionError`. -/
theorem clean_mcv2_data_zero_rows_zero_division :
    clean_mcv2_data ⟨true, true, true, true, true, []⟩ = .error .zeroDivisionError := rfl

/-! ### Filtering (C4) -/

theorem applyStep_eq {α β : Type} (o : Option β) (t : β → Bool) (p : β → α → Bool)
    (l : List α) : applyStep o t p l = l.filter (stepOk o t p) := by
  cases o with
  | none =>
    simp only [applyStep]
    exact (List.filter_eq_self.mpr (fun a _ => rfl)).symm
  | some x =>
    by_cases h : t x
    · simp only [applyStep, if_pos h]
      apply List.filter_congr
      intro a _
      show p x a = if t x then p x a else true
      rw [if_pos h]
    · simp only [applyStep, if_neg h]
      symm
      apply List.filter_eq_self.mpr
      intro a _
      show (if t x then p x a else true) = true
      rw [if_neg h]

/-- C4: `filter_mcv2_data` returns exactly the input records satisfying the
conjunction of all present (and truthy) criteria; absent criteria impose no
constraint.  Since `List.filter` preserves order, may return `[]` and is
total, the order-preservation, possibly-empty and no-exception parts of the
claim follow from this equation. -/
theorem filter_mcv2_data_spec (rows : List CanonicalRecord) (f : Filters) :
    filter_mcv2_data rows f = rows.filter (matchesFilters f) := by
  unfold filter_mcv2_data
  rw [applyStep_eq, applyStep_eq, applyStep_eq, applyStep_eq, applyStep_eq]
  rw [List.filter_filter, List.filter_filter, List.filter_filter, List.filter_filter]
  apply List.filter_congr
  intro a _
  unfold matchesFilters
  generalize stepOk f.country (fun cs => !cs.isEmpty)
    (fun cs r => decide (r.country ∈ cs)) a = b1
  generalize stepOk f.year_start (fun y => decide (y ≠ 0))
    (fun y r => decide (y ≤ r.year)) a = b2
  generalize stepOk f.year_end (fun y => decide (y ≠ 0))
    (fun y r => decide (r.year ≤ y)) a = b3
  generalize stepOk f.region (fun rs => !rs.isEmpty) regionIsin a = b4
  generalize stepOk f.mcv2_coverage_min (fun m => decide (m ≠ 0))
    (fun m r => decide (m ≤ r.mcv2_coverage)) a = b5
  cases b1 <;> cases b2 <;> cases b3 <;> cases b4 <;> cases b5 <;> rfl

/-! ### Summarization (C5, C9) -/

theorem groupPairs_map_fst (rows : List CanonicalRecord) (g : Str) :
    (groupPairs rows g).map Prod.fst = rows.filterMap (getCell g) := by
  induction rows with
  | nil => rfl
  | cons r l ih =>
    unfold groupPairs at *
    cases hc : getCell g r <;> simp [List.filterMap_cons, hc, ih]

theorem groupPairs_filter_key (rows : List CanonicalRecord) (g : Str) (k : CellVal) :
    ((groupPairs rows g).filter (fun p => p.1 = k)).map Prod.snd = groupValues rows g k := by
  induction rows with
  | nil => rfl
  | cons r l ih =>
    unfold groupPairs groupValues at *
    cases hc : getCell g r with
    | none => simp [List.filterMap_cons, hc, List.filter_cons, ih]
    | some k2 =>
      by_cases hk : k2 = k
      · subst hk
        simp [List.filterMap_cons, hc, List.filter_cons, ih]
      · simp [List.filterMap_cons, hc, List.filter_cons, hk, ih]

theorem dedupFirstBy_id_nodup {κ : Type} [DecidableEq κ] (l : List κ) :
    (dedupFirstBy id l []).Nodup := by
  have h := (dedupFirstBy_keys id l []).1
  simpa using h

theorem dedupFirstBy_id_mem {κ : Type} [DecidableEq κ] (l : List κ) (k : κ) :
    k ∈ dedupFirstBy id l [] ↔ k ∈ l := by
  have h := dedupFirstBy_mem_key id l [] k
  simpa using h

theorem map_key_summaryRowOf (pairs : List (CellVal × ℚ)) (keys : List CellVal) :
    ((keys.map (summaryRowOf pairs)).map SummaryRow.key) = keys := by
  rw [List.map_map]
  have h : (SummaryRow.key ∘ summaryRowOf pairs) = id := funext (fun k => rfl)
  rw [h, List.map_id]

/-- C5: `summarize_mcv2_data` emits exactly one row per distinct group-key
value present in the input (no duplicate keys, and a key appears iff some
record carries it), whose fields are the mean/max/min of the group's coverage
values rounded to one decimal place and the group's record count; an empty
input yields an empty result. -/
theorem summarize_mcv2_data_spec (fr : Frame) (gb : Str) :
    ((summarize_mcv2_data fr gb).map SummaryRow.key).Nodup ∧
    (∀ k, k ∈ (summarize_mcv2_data fr gb).map SummaryRow.key ↔
      ∃ r ∈ fr.rows, getCell (effectiveGroupKey fr gb) r = some k) ∧
    (∀ row ∈ summarize_mcv2_data fr gb,
      row.coverage_mean =
        round1 (qmean (groupValues fr.rows (effectiveGroupKey fr gb) row.key)) ∧
      row.coverage_max =
        round1 (qmaxList (groupValues fr.rows (effectiveGroupKey fr gb) row.key)) ∧
      row.coverage_min =
        round1 (qminList (groupValues fr.rows (effectiveGroupKey fr gb) row.key)) ∧
      row.record_count = (groupValues fr.rows (effectiveGroupKey fr gb) row.key).length) ∧
    (fr.rows = [] → summarize_mcv2_data fr gb = []) := by
  refine ⟨?_, ?_, ?_, ?_⟩
  · unfold summarize_mcv2_data
    rw [map_key_summaryRowOf]
    exact ((sortBy_perm cellLE _).nodup_iff).mpr (dedupFirstBy_id_nodup _)
  · intro k
    unfold summarize_mcv2_data
    rw [map_key_summaryRowOf]
    rw [(sortBy_perm cellLE _).mem_iff, dedupFirstBy_id_mem, groupPairs_map_fst]
    exact List.mem_filterMap
  · intro row hrow
    unfold summarize_mcv2_data at hrow
    rw [List.mem_map] at hrow
    obtain ⟨k, _, hk⟩ := hrow
    subst hk
    refine ⟨?_, ?_, ?_, ?_⟩ <;>
      simp only [summaryRowOf, groupPairs_filter_key, List.length_map]
  · intro h
    unfold summarize_mcv2_data
    rw [h]
    rfl

/-- C9: for any `group_by` string that is not a column of the input frame,
`summarize_mcv2_data` does not fail: it groups by `country` instead, and the
fallback is observable through the warning of line 69. -/
theorem summarize_mcv2_data_fallback (fr : Frame) (gb : Str) (h : gb ∉ columnsOf fr) :
    summarize_mcv2_data fr gb = summarize_mcv2_data fr colCountry ∧
      summarize_warns fr gb = true := by
  have hc : colCountry ∈ columnsOf fr := by unfold columnsOf; simp
  have he : effectiveGroupKey fr gb = effectiveGroupKey fr colCountry := by
    unfold effectiveGroupKey
    rw [if_neg h, if_pos hc]
  exact ⟨by unfold summarize_mcv2_data; rw [he], by simp [summarize_warns, h]⟩

/-! ### Trend analysis (C6) -/

/-- C6: `mcv2_trend_analysis` returns exactly (as a permutation) the
`(year, coverage)` projections of the records whose country equals the given
code under exact case-sensitive comparison, in ascending year order; when no
record matches it returns `[]` (and, being total, never raises). -/
theorem mcv2_trend_analysis_spec (rows : List CanonicalRecord) (c : Str) :
    (mcv2_trend_analysis rows c).Perm
        ((rows.filter (fun r => r.country = c)).map (fun r => (r.year, r.mcv2_coverage))) ∧
      (mcv2_trend_analysis rows c).Pairwise (fun a b => a.1 ≤ b.1) ∧
      ((∀ r ∈ rows, r.country ≠ c) → mcv2_trend_analysis rows c = []) := by
  refine ⟨sortBy_perm _ _, ?_, ?_⟩
  · have hp := sortBy_pairwise (fun a b : Int × ℚ => decide (a.1 ≤ b.1))
      (fun a b => by rcases le_total a.1 b.1 with h | h <;> simp [h])
      (fun a b c h1 h2 => by
        simp only [decide_eq_true_eq] at h1 h2 ⊢
        omega)
      ((rows.filter (fun r => r.country = c)).map (fun r => (r.year, r.mcv2_coverage)))
    exact hp.imp (fun h => by simpa using h)
  · intro h
    unfold mcv2_trend_analysis
    have hf : rows.filter (fun r => decide (r.country = c)) = [] := by
      rw [List.filter_eq_nil_iff]
      intro a ha
      simp [h a ha]
    rw [hf]
    rfl

/-! ### Persistence (C7, C10) -/

def sampleDbRow : DbRow :=
  ⟨some ("CHN").data, some ("China").data, some 2015, some 95, some ("Asia").data⟩

/-- C7 (failing input): writing an empty record set does not fail and does not
leave the store untouched — the null check passes vacuously, the table is
dropped and recreated, and the call reports success with the previously stored
row gone. -/
theorem df_to_sqlite_empty_write_succeeds_and_wipes :
    df_to_sqlite [] (some [sampleDbRow]) = (true, some []) := rfl

/-- C10: `df_to_sqlite` returns failure whenever any column of any input row
is null — the check covers every column, optional ones included — and the
check runs before the database is touched, so the stored contents are
unchanged on this failure. -/
theorem df_to_sqlite_null_aborts (df : List DbRow) (stored : Option (List DbRow))
    (r : DbRow) (hr : r ∈ df) (hn : rowHasNull r = true) :
    df_to_sqlite df stored = (false, stored) := by
  unfold df_to_sqlite
  rw [if_pos (List.any_eq_true.mpr ⟨r, hr, hn⟩)]

/-! ### Concrete witnesses -/

def invWitnessInput : RawInput :=
  ⟨true, true, true, true, true,
   [⟨some (" chn ").data, some ("China").data, some 2015, some 95, some ("Asia").data⟩]⟩

def invWitnessFrame : Frame :=
  ⟨true, true, [⟨("CHN").data, some ("China").data, 2015, 95, some ("Asia").data⟩]⟩

theorem clean_mcv2_data_canonical_invariant_witness :
    clean_mcv2_data invWitnessInput = .ok invWitnessFrame ∧
      ∀ r ∈ invWitnessFrame.rows, canonicalInv r :=
  ⟨rfl, clean_mcv2_data_canonical_invariant invWitnessInput invWitnessFrame rfl⟩

def dedupWitnessInput : RawInput :=
  ⟨true, false, true, true, false,
   [⟨some ("chn").data, none, some 2015, some 95, none⟩,
    ⟨some ("CHN").data, none, some 2015, some 97, none⟩]⟩

def dedupWitnessFrame : Frame := ⟨false, false, [⟨("CHN").data, none, 2015, 95, none⟩]⟩

theorem clean_mcv2_data_dedup_first_witness :
    (dedupWitnessFrame.rows.map recKey).Nodup ∧
      dedupWitnessFrame.rows = keepFirstOccurrences recKey (formattedStage dedupWitnessInput) :=
  clean_mcv2_data_dedup_first dedupWitnessInput dedupWitnessFrame rfl

def summaryWitnessFrame : Frame :=
  ⟨false, false, [⟨("CHN").data, none, 2014, 90, none⟩, ⟨("CHN").data, none, 2015, 100, none⟩]⟩

theorem summarize_mcv2_data_spec_witness :
    ∃ row ∈ summarize_mcv2_data summaryWitnessFrame colCountry,
      row.key = CellVal.s ("CHN").data ∧
      row.coverage_mean = round1 (qmean (groupValues summaryWitnessFrame.rows
        (effectiveGroupKey summaryWitnessFrame colCountry) row.key)) ∧
      row.record_count = (groupValues summaryWitnessFrame.rows
        (effectiveGroupKey summaryWitnessFrame colCountry) row.key).length := by
  have hspec := summarize_mcv2_data_spec summaryWitnessFrame colCountry
  have hk : CellVal.s ("CHN").data ∈
      (summarize_mcv2_data summaryWitnessFrame colCountry).map SummaryRow.key :=
    (hspec.2.1 (CellVal.s ("CHN").data)).mpr
      ⟨⟨("CHN").data, none, 2014, 90, none⟩, by decide, by decide⟩
  rw [List.mem_map] at hk
  obtain ⟨row, hrow, hkey⟩ := hk
  exact ⟨row, hrow, hkey, (hspec.2.2.1 row hrow).1, (hspec.2.2.1 row hrow).2.2.2⟩

theorem summarize_mcv2_data_fallback_witness :
    summarize_mcv2_data summaryWitnessFrame (("bogus").data) =
        summarize_mcv2_data summaryWitnessFrame colCountry ∧
      summarize_warns summaryWitnessFrame (("bogus").data) = true :=
  summarize_mcv2_data_fallback summaryWitnessFrame (("bogus").data) (by decide)

theorem mcv2_trend_analysis_spec_witness :
    mcv2_trend_analysis [(⟨("CHN").data, none, 2015, 95, none⟩ : CanonicalRecord)]
      (("USA").data) = [] :=
  (mcv2_trend_analysis_spec [⟨("CHN").data, none, 2015, 95, none⟩] (("USA").data)).2.2
    (by decide)

def nullNameRow : DbRow := ⟨some ("CHN").data, none, some 2015, some 95, some ("Asia").data⟩

theorem df_to_sqlite_null_aborts_witness :
    nullNameRow ∈ [nullNameRow] ∧ rowHasNull nullNameRow = true ∧
      df_to_sqlite [nullNameRow] (some []) = (false, some []) :=
  ⟨by decide, by decide,
   df_to_sqlite_null_aborts [nullNameRow] (some []) nullNameRow (by decide) (by decide)⟩

end Task1
